import Mathlib

/-!
Verification of `src/bin/resources.py` of the Reddit_Upvote_Estimator
repository: a shallow embedding of its three functions
(`download_embedding`, `download_file`, `create_embedding_matrix`)
together with theorems settling the specification's claims about them.

File contents are modelled as lists of bytes, the filesystem as an
association of paths to contents, the network as a pure oracle mapping a
URL to an optional response (`none` = transport failure, mirroring an
exception raised by `requests.get`), and gzip decompression as a pure
oracle (`none` = corrupt archive).  Fallible Python code is embedded as
`Option`-returning functions, with `none` standing for an uncaught
exception.
-/

namespace RedditUpvote

/-- File or response contents: a sequence of bytes. -/
abbrev Bytes := List Nat

/-- A filesystem path (Python string). -/
abbrev Path := String

/-- The local filesystem: an association of paths to file contents.
Existence of a path is the only state `resources.py` ever queries. -/
structure FileSystem where
  files : List (Path × Bytes)
deriving DecidableEq

/-- `os.path.exists`: does a file exist at path `p`? -/
def FileSystem.exists? (fs : FileSystem) (p : Path) : Bool :=
  fs.files.any (fun e => e.1 == p)

/-- Reading a file's contents (`none` when the path is absent, modelling
the `IOError` raised on opening a missing file for reading). -/
def FileSystem.read (fs : FileSystem) (p : Path) : Option Bytes :=
  (fs.files.find? (fun e => e.1 == p)).map (fun e => e.2)

/-- Writing contents `d` at path `p` (mode `wb`/`w+`): any previous
contents at `p` are truncated and replaced. -/
def FileSystem.write (fs : FileSystem) (p : Path) (d : Bytes) : FileSystem :=
  ⟨(p, d) :: fs.files.filter (fun e => !(e.1 == p))⟩

/-- An HTTP response as observed through `requests`: a status code and a
body byte stream. -/
structure Response where
  status : Nat
  body : Bytes
deriving DecidableEq

/-- The network, as the pure oracle `requests.get` consults: `none`
models a transport failure (connection error raising an exception);
`some r` a delivered response of any status code. -/
abbrev Network := String → Option Response

/-- The gzip library as a pure oracle: decompression of an archive's
bytes, `none` modelling a corrupt archive (uncaught decompression
error). -/
abbrev Gunzip := Bytes → Option Bytes

/-- The fixed chunk size of `download_file` (`chunk_size=1048576`). -/
def chunkSize : Nat := 1048576

/-- Structural worker for `chunksOf`: peels chunks of `n` bytes off the
front of `b`; `fuel` bounds the recursion depth and any `fuel` of at
least `b.length` is enough when `n` is positive. -/
def chunksGo (n : Nat) : Nat → Bytes → List Bytes
  | _, [] => []
  | 0, _ :: _ => []
  | fuel + 1, c :: rest => ((c :: rest).take n) :: chunksGo n fuel ((c :: rest).drop n)

/-- `r.iter_content(chunk_size=n)`: the body split into successive
chunks of `n` bytes, the last chunk possibly shorter; no empty chunks
are produced and an exhausted body yields nothing. -/
def chunksOf (n : Nat) (b : Bytes) : List Bytes :=
  if n = 0 then [] else chunksGo n b.length b

/-- `download_file(url, local_file_path)` from `src/bin/resources.py`
(lines 56-89): open a streaming connection, open the destination for
binary write (truncating it), write each non-empty chunk of the body,
close the connection and return the destination path.  The status code
of the response is never inspected.  `none` models the exception raised
by `requests.get` on a transport failure. -/
def download_file (net : Network) (url : String) (local_file_path : Path)
    (fs : FileSystem) : Option (FileSystem × Path) :=
  match net url with
  | none => none
  | some r =>
      let contents := (chunksOf chunkSize r.body).foldl
        (fun acc chunk => if chunk = [] then acc else acc ++ chunk) []
      some (fs.write local_file_path contents, local_file_path)

/-- An observable side effect of the orchestration: a network fetch
(`download_file` invoked) or a decompression of the archive. -/
inductive Event where
  | download (url : String) (dest : Path)
  | extract (src : Path) (dest : Path)
deriving DecidableEq

/-- Discriminator: is this event a network fetch? -/
def Event.isDownload : Event → Bool
  | .download _ _ => true
  | .extract _ _ => false

/-- Discriminator: is this event a decompression? -/
def Event.isExtract : Event → Bool
  | .download _ _ => false
  | .extract _ _ => true

/-- The hardcoded source URL of `download_embedding`. -/
def embedding_download_link : String :=
  "https://s3.amazonaws.com/dl4j-distribution/GoogleNews-vectors-negative300.bin.gz"

/-- The hardcoded local path of the compressed archive. -/
def embedding_downloaded_path : Path :=
  "../resources/compressed/GoogleNews-vectors-negative300.bin.gz"

/-- The external configuration collaborator (`get_conf`): supplies the
decompressed-file destination path `embedding_path`. -/
structure Conf where
  embedding_path : Path

/-- Iterating over an open binary file line by line (`for line in
zipped`): split after each newline byte (0x0A), each line keeping its
terminator, a final unterminated line kept as well.  `acc` holds the
bytes of the current line read so far, in reverse. -/
def linesAux : Bytes → Bytes → List Bytes
  | [], acc => if acc = [] then [] else [acc.reverse]
  | c :: rest, acc =>
      if c = 10 then (10 :: acc).reverse :: linesAux rest []
      else linesAux rest (c :: acc)

/-- The lines of a byte sequence, terminators kept. -/
def linesOf (b : Bytes) : List Bytes := linesAux b []

/-- The extraction step of `download_embedding` (lines 48-51): open the
gzip archive at `embedding_downloaded_path` for reading and the
configured `embedding_path` for writing, and copy the decompressed
contents line by line until the source is exhausted.  `none` models an
uncaught exception (missing archive or corrupt gzip data). -/
def extract_embedding (gunzip : Gunzip) (conf : Conf) (fs : FileSystem) :
    Option FileSystem :=
  match fs.read embedding_downloaded_path with
  | none => none
  | some c =>
      match gunzip c with
      | none => none
      | some d =>
          some (fs.write conf.embedding_path
            ((linesOf d).foldl (fun acc line => acc ++ line) []))

/-- `download_embedding()` from `src/bin/resources.py` (lines 12-53):
if the compressed archive is absent, fetch it with `download_file`; then
if the configured `embedding_path` is absent, extract the archive into
it.  Returns the trace of fetch/extract operations attempted (in order)
together with the resulting filesystem, `none` for the filesystem when
an operation raised. -/
def download_embedding (net : Network) (gunzip : Gunzip) (conf : Conf)
    (fs : FileSystem) : List Event × Option FileSystem :=
  let step1 : List Event × Option FileSystem :=
    if fs.exists? embedding_downloaded_path then ([], some fs)
    else
      match download_file net embedding_download_link embedding_downloaded_path fs with
      | none => ([Event.download embedding_download_link embedding_downloaded_path], none)
      | some (fs', _) =>
          ([Event.download embedding_download_link embedding_downloaded_path], some fs')
  match step1 with
  | (evs, none) => (evs, none)
  | (evs, some fs1) =>
      if fs1.exists? conf.embedding_path then (evs, some fs1)
      else
        match extract_embedding gunzip conf fs1 with
        | none => (evs ++ [Event.extract embedding_downloaded_path conf.embedding_path], none)
        | some fs2 => (evs ++ [Event.extract embedding_downloaded_path conf.embedding_path], some fs2)

/-- An embedding vector; the claims never inspect the numeric values, so
entries are modelled as integers. -/
abbrev Vec := List Int

/-- A well-known-format binary word-vector file, already decoded into
its header dimensionality and its sequence of (word, vector) records in
file order. -/
structure W2VFile where
  dim : Nat
  records : List (String × Vec)

/-- Python `dict` lookup on an association list (keys of a `dict` are
unique, so first match equals the dict's binding). -/
def lookupKey : List (String × Nat) → String → Option Nat
  | [], _ => none
  | (k', v) :: rest, k => if k' = k then some v else lookupKey rest k

/-- The `(word, row-index)` pairs of a record list, rows numbered from
`n`. -/
def wordIndexAux : List (String × Vec) → Nat → List (String × Nat)
  | [], _ => []
  | (w, _) :: rest, n => (w, n) :: wordIndexAux rest (n + 1)

/-- Modelled from the spec: the external gensim binary word-vector
loader (`gensim.models.KeyedVectors.load_word2vec_format`, not part of
this repository).  Per spec section 6, the format is a header with
vocabulary size and dimensionality followed by one record per word;
the loader's `syn0` matrix holds the vectors row by row in file order
and `vocab` maps each word to its row index. -/
def loadWord2vec (f : W2VFile) : List Vec × List (String × Nat) :=
  (f.records.map (fun r => r.2), wordIndexAux f.records 0)

/-- The `defaultdict` returned by `create_embedding_matrix`: an
association of words to row indices whose default factory is
`lambda: word_to_index['UNK']`, where `word_to_index` is (after the
rebinding on line 116) this very dictionary. -/
structure DefaultDict where
  entries : List (String × Nat)
deriving DecidableEq

/-- A `defaultdict` lookup `d[k]`: a present key returns its value and
leaves the dict unchanged; a missing key invokes the default factory
(looking `'UNK'` up in the dict), inserts the key with the produced
value and returns it.  When `'UNK'` itself is missing, the factory's
own lookup recurses forever, so the access raises; `none` models that
uncaught failure. -/
def ddLookup (d : DefaultDict) (k : String) : Option (Nat × DefaultDict) :=
  match lookupKey d.entries k with
  | some v => some (v, d)
  | none =>
      match lookupKey d.entries "UNK" with
      | some v => some (v, ⟨d.entries ++ [(k, v)]⟩)
      | none => none

/-- `create_embedding_matrix()` from `src/bin/resources.py` (lines
92-122), applied to the decoded word-vector file: extract the matrix
(`model.syn0`) and the word-to-row mapping (`model.vocab`), then wrap
the mapping in a `defaultdict` defaulting absent keys to the row index
of `'UNK'`. -/
def create_embedding_matrix (f : W2VFile) : List Vec × DefaultDict :=
  let model := loadWord2vec f
  let embedding_matrix := model.1
  let word_to_index := model.2
  (embedding_matrix, ⟨word_to_index⟩)

/-! ### Helper lemmas -/

/-- Folding the chunk-writing step over the chunks of `b` appends
exactly `b` to the file contents written so far. -/
theorem chunksGo_foldl (n : Nat) (hn : n ≠ 0) :
    ∀ (fuel : Nat) (b acc : Bytes), b.length ≤ fuel →
      (chunksGo n fuel b).foldl
        (fun acc chunk => if chunk = [] then acc else acc ++ chunk) acc = acc ++ b := by
  intro fuel
  induction fuel with
  | zero =>
    intro b acc hb
    cases b with
    | nil => simp [chunksGo]
    | cons c rest => simp at hb
  | succ fuel ih =>
    intro b acc hb
    cases b with
    | nil => simp [chunksGo]
    | cons c rest =>
      simp only [chunksGo, List.foldl_cons]
      have htake : (c :: rest).take n ≠ [] := by
        cases n with
        | zero => exact absurd rfl hn
        | succ m => simp [List.take]
      rw [if_neg htake]
      have hlen : ((c :: rest).drop n).length ≤ fuel := by
        simp only [List.length_drop, List.length_cons] at *
        omega
      rw [ih _ _ hlen, List.append_assoc, List.take_append_drop]

/-- The chunked writing loop of `download_file` reproduces the body
byte for byte. -/
theorem chunksOf_foldl (n : Nat) (hn : n ≠ 0) (b : Bytes) :
    (chunksOf n b).foldl
      (fun acc chunk => if chunk = [] then acc else acc ++ chunk) [] = b := by
  rw [chunksOf, if_neg hn]
  exact chunksGo_foldl n hn b.length b [] le_rfl

/-- Folding append over a list of lines starting from `acc` yields
`acc` followed by the concatenation of the lines. -/
theorem foldl_append_eq_flatten (l : List Bytes) (acc : Bytes) :
    l.foldl (fun acc line => acc ++ line) acc = acc ++ l.flatten := by
  induction l generalizing acc with
  | nil => simp
  | cons x xs ih => simp [ih]

/-- Concatenating the lines produced by `linesAux` recovers the pending
partial line followed by the remaining input. -/
theorem flatten_linesAux (b : Bytes) :
    ∀ acc : Bytes, (linesAux b acc).flatten = acc.reverse ++ b := by
  induction b with
  | nil =>
    intro acc
    by_cases h : acc = []
    · simp [linesAux, h]
    · simp [linesAux, h]
  | cons c rest ih =>
    intro acc
    simp only [linesAux]
    by_cases h : c = 10
    · subst h
      simp [ih]
    · simp [h, ih]

/-- Splitting into lines and concatenating them back is the identity:
line-by-line copying preserves contents. -/
theorem flatten_linesOf (b : Bytes) : (linesOf b).flatten = b := by
  simp [linesOf, flatten_linesAux]

/-- Reading back a freshly written file returns exactly the written
contents. -/
theorem read_write_self (fs : FileSystem) (p : Path) (d : Bytes) :
    (fs.write p d).read p = some d := by
  simp [FileSystem.write, FileSystem.read, List.find?]

/-- A freshly written file exists. -/
theorem exists?_write_self (fs : FileSystem) (p : Path) (d : Bytes) :
    (fs.write p d).exists? p = true := by
  simp [FileSystem.write, FileSystem.exists?]

/-- Writing at one path does not change existence at a different
path. -/
theorem exists?_write_ne (fs : FileSystem) (p : Path) (d : Bytes) (q : Path)
    (h : q ≠ p) : (fs.write p d).exists? q = fs.exists? q := by
  simp only [FileSystem.write, FileSystem.exists?, List.any_cons]
  have hpq : (p == q) = false := by
    simp only [beq_eq_false_iff_ne, ne_eq]
    exact fun hh => h hh.symm
  rw [hpq, Bool.false_or]
  induction fs.files with
  | nil => rfl
  | cons e rest ih =>
    by_cases he : (e.1 == p) = true
    · have heq : (e.1 == q) = false := by
        simp only [beq_eq_false_iff_ne, ne_eq]
        intro hq
        have hep : e.1 = p := by simpa using he
        exact h (hq.symm.trans hep)
      simp [List.filter_cons, he, heq, ih]
    · simp [List.filter_cons, he, List.any_cons, ih]

/-- A path that can be read exists. -/
theorem exists?_of_read (fs : FileSystem) (p : Path) (c : Bytes)
    (h : fs.read p = some c) : fs.exists? p = true := by
  simp only [FileSystem.read, Option.map_eq_some'] at h
  obtain ⟨e, he, -⟩ := h
  have hmem := List.mem_of_find?_eq_some he
  have hpred := List.find?_some he
  simp only [FileSystem.exists?, List.any_eq_true]
  exact ⟨e, hmem, hpred⟩

/-- A key outside the key set of an association list has no binding. -/
theorem lookupKey_eq_none_of_not_mem (l : List (String × Nat)) (k : String)
    (h : k ∉ l.map (fun e => e.1)) : lookupKey l k = none := by
  induction l with
  | nil => rfl
  | cons e rest ih =>
    simp only [List.map_cons, List.mem_cons] at h
    push_neg at h
    simp only [lookupKey]
    rw [if_neg (fun he => h.1 he.symm)]
    exact ih h.2

/-- A key in the key set of an association list has a binding. -/
theorem lookupKey_isSome_of_mem (l : List (String × Nat)) (k : String)
    (h : k ∈ l.map (fun e => e.1)) : ∃ v, lookupKey l k = some v := by
  induction l with
  | nil => simp at h
  | cons e rest ih =>
    simp only [lookupKey]
    by_cases he : e.1 = k
    · exact ⟨e.2, by rw [if_pos he]⟩
    · rw [if_neg he]
      apply ih
      simp only [List.map_cons, List.mem_cons] at h
      rcases h with h | h
      · exact absurd h.symm he
      · exact h

/-- An existing binding survives appending entries on the right. -/
theorem lookupKey_append_some (l l' : List (String × Nat)) (k : String) (v : Nat)
    (h : lookupKey l k = some v) : lookupKey (l ++ l') k = some v := by
  induction l with
  | nil => simp [lookupKey] at h
  | cons e rest ih =>
    simp only [lookupKey, List.cons_append] at h ⊢
    by_cases he : e.1 = k
    · rwa [if_pos he] at h ⊢
    · rw [if_neg he] at h ⊢
      exact ih h

/-- The key set of the word-to-row-index list is the vocabulary in file
order. -/
theorem wordIndexAux_keys (l : List (String × Vec)) (n : Nat) :
    (wordIndexAux l n).map (fun e => e.1) = l.map (fun e => e.1) := by
  induction l generalizing n with
  | nil => rfl
  | cons e rest ih =>
    cases e with
    | mk w vec => simp [wordIndexAux, ih]

/-- In the word-to-row-index list of a duplicate-free vocabulary, the
`i`-th word resolves to row `n + i`. -/
theorem lookupKey_wordIndexAux (l : List (String × Vec))
    (hnd : (l.map (fun e => e.1)).Nodup) :
    ∀ (n i : Nat) (h : i < l.length),
      lookupKey (wordIndexAux l n) (l.get ⟨i, h⟩).1 = some (n + i) := by
  induction l with
  | nil =>
    intro n i h
    exact absurd h (by simp)
  | cons e rest ih =>
    intro n i h
    cases e with
    | mk w vec =>
      simp only [List.map_cons, List.nodup_cons] at hnd
      match i with
      | 0 => simp [wordIndexAux, lookupKey]
      | Nat.succ j =>
        have hj : j < rest.length := by simpa using h
        have hget : ((w, vec) :: rest).get ⟨j + 1, h⟩ = rest.get ⟨j, hj⟩ := rfl
        rw [hget]
        simp only [wordIndexAux, lookupKey]
        have hkey : (rest.get ⟨j, hj⟩).1 ∈ rest.map (fun e => e.1) :=
          List.mem_map.mpr ⟨_, List.get_mem _ _ _, rfl⟩
        rw [if_neg (fun hw => hnd.1 (by rw [hw]; exact hkey))]
        rw [ih hnd.2 (n + 1) j hj]
        congr 1
        omega

/-! ### Concrete fixtures used by witnesses and counterexamples -/

/-- A small well-formed word-vector fixture: 3 words of dimensionality
4, including an "UNK" entry. -/
def fixtureF : W2VFile :=
  ⟨4, [("UNK", [0, 0, 0, 0]), ("cat", [1, 2, 3, 4]), ("dog", [5, 6, 7, 8])]⟩

/-- A word-vector fixture whose vocabulary lacks "UNK". -/
def fixtureNoUnk : W2VFile := ⟨2, [("cat", [1, 2]), ("dog", [3, 4])]⟩

/-- A network on which every URL answers 404 with a 2-byte body. -/
def net404 : Network := fun _ => some ⟨404, [110, 111]⟩

/-- A network on which every URL answers 200 with a 2-byte body. -/
def netFixture : Network := fun _ => some ⟨200, [103, 122]⟩

/-- A network on which every URL answers 200 with an empty body. -/
def netEmpty : Network := fun _ => some ⟨200, []⟩

/-- A gzip oracle decompressing everything to two known text lines. -/
def gunzipFixture : Gunzip := fun _ => some [104, 105, 10, 121, 111]

/-- A configuration fixture supplying a decompressed-file path. -/
def confFixture : Conf := ⟨"../resources/embedding/GoogleNews.bin"⟩

/-- A filesystem holding both the compressed archive and the
decompressed file of `confFixture`. -/
def fsBoth : FileSystem :=
  ⟨[(embedding_downloaded_path, [31, 139]), (confFixture.embedding_path, [104, 105])]⟩

/-- A filesystem holding only the compressed archive. -/
def fsArchOnly : FileSystem := ⟨[(embedding_downloaded_path, [31, 139])]⟩

/-! ### Claims about `create_embedding_matrix` -/

/-- C1: for every well-formed word-vector input (duplicate-free
vocabulary, every vector of the header dimensionality) containing an
"UNK" entry, `create_embedding_matrix` returns a matrix of shape
(vocabulary size, dimensionality) and a mapping in which every word of
the vocabulary resolves to its row index and every key outside the
vocabulary resolves to the same row index as "UNK". -/
theorem create_embedding_matrix_correct (f : W2VFile)
    (hnd : (f.records.map (fun r => r.1)).Nodup)
    (hdim : ∀ r ∈ f.records, r.2.length = f.dim)
    (hunk : "UNK" ∈ f.records.map (fun r => r.1)) :
    (create_embedding_matrix f).1.length = f.records.length
    ∧ (∀ row ∈ (create_embedding_matrix f).1, row.length = f.dim)
    ∧ (∀ (i : Nat) (h : i < f.records.length),
        ddLookup (create_embedding_matrix f).2 (f.records.get ⟨i, h⟩).1
          = some (i, (create_embedding_matrix f).2))
    ∧ (∀ k, k ∉ f.records.map (fun r => r.1) →
        (ddLookup (create_embedding_matrix f).2 k).map (fun p => p.1)
          = (ddLookup (create_embedding_matrix f).2 "UNK").map (fun p => p.1)) := by
  have hentries : (create_embedding_matrix f).2.entries = wordIndexAux f.records 0 := rfl
  refine ⟨?_, ?_, ?_, ?_⟩
  · simp [create_embedding_matrix, loadWord2vec]
  · intro row hrow
    simp only [create_embedding_matrix, loadWord2vec, List.mem_map] at hrow
    obtain ⟨r, hr, hrr⟩ := hrow
    rw [← hrr]
    exact hdim r hr
  · intro i h
    have hl := lookupKey_wordIndexAux f.records hnd 0 i h
    simp only [Nat.zero_add] at hl
    simp only [ddLookup, hentries, hl]
  · intro k hk
    have hknone : lookupKey (wordIndexAux f.records 0) k = none := by
      apply lookupKey_eq_none_of_not_mem
      rw [wordIndexAux_keys]
      exact hk
    have hunk' : "UNK" ∈ (wordIndexAux f.records 0).map (fun e => e.1) := by
      rw [wordIndexAux_keys]
      exact hunk
    obtain ⟨u, hu⟩ := lookupKey_isSome_of_mem _ _ hunk'
    simp only [ddLookup, hentries, hknone, hu, Option.map_some']

/-- Witness for C1 at the 3-word, dimensionality-4 fixture: the
out-of-vocabulary key "zebra" resolves to the same row index as
"UNK". -/
theorem create_embedding_matrix_correct_witness :
    (ddLookup (create_embedding_matrix fixtureF).2 "zebra").map (fun p => p.1)
      = (ddLookup (create_embedding_matrix fixtureF).2 "UNK").map (fun p => p.1) :=
  (create_embedding_matrix_correct fixtureF (by decide) (by decide)
    (by decide)).2.2.2 "zebra" (by decide)

/-- C8: when "UNK" is absent from the source vocabulary, the returned
mapping fails (the default factory's own lookup of "UNK" raises) at a
lookup of any key outside the vocabulary, rather than silently
returning a value; `none` is the embedding of that uncaught failure. -/
theorem ddLookup_without_unk_fails (f : W2VFile) (k : String)
    (hunk : "UNK" ∉ f.records.map (fun r => r.1))
    (hk : k ∉ f.records.map (fun r => r.1)) :
    ddLookup (create_embedding_matrix f).2 k = none := by
  have hentries : (create_embedding_matrix f).2.entries = wordIndexAux f.records 0 := rfl
  have h1 : lookupKey (wordIndexAux f.records 0) k = none := by
    apply lookupKey_eq_none_of_not_mem
    rw [wordIndexAux_keys]
    exact hk
  have h2 : lookupKey (wordIndexAux f.records 0) "UNK" = none := by
    apply lookupKey_eq_none_of_not_mem
    rw [wordIndexAux_keys]
    exact hunk
  simp only [ddLookup, hentries, h1, h2]

/-- Witness for C8 at a 2-word fixture without "UNK": looking up
"zebra" fails. -/
theorem ddLookup_without_unk_fails_witness :
    ddLookup (create_embedding_matrix fixtureNoUnk).2 "zebra" = none :=
  ddLookup_without_unk_fails fixtureNoUnk "zebra" (by decide) (by decide)

/-- C9 counterexample: the mapping returned by
`create_embedding_matrix` is not read-only under lookups: on the
fixture vocabulary, a single out-of-vocabulary lookup inserts the
looked-up key, so the mapping after the lookup differs from the
mapping at construction. -/
theorem ddLookup_inserts_on_miss :
    ddLookup (create_embedding_matrix fixtureF).2 "zebra"
      = some (0, ⟨[("UNK", 0), ("cat", 1), ("dog", 2), ("zebra", 0)]⟩)
    ∧ (⟨[("UNK", 0), ("cat", 1), ("dog", 2), ("zebra", 0)]⟩ : DefaultDict)
        ≠ (create_embedding_matrix fixtureF).2 := by
  decide

/-- C9 amended: lookups never change the binding of any key already in
the mapping, and a lookup of a present key leaves the mapping
unchanged; but a lookup of an absent key appends that key, bound to
"UNK"'s row index, to the mapping. -/
theorem ddLookup_preserves_existing (d : DefaultDict) (k : String) (v : Nat)
    (d' : DefaultDict) (h : ddLookup d k = some (v, d')) :
    (∀ k0 v0, lookupKey d.entries k0 = some v0 → lookupKey d'.entries k0 = some v0)
    ∧ (d'.entries = d.entries
        ∨ (lookupKey d.entries k = none ∧ lookupKey d.entries "UNK" = some v
            ∧ d'.entries = d.entries ++ [(k, v)])) := by
  cases hk : lookupKey d.entries k with
  | some w =>
    simp only [ddLookup, hk, Option.some.injEq, Prod.mk.injEq] at h
    obtain ⟨hv, hd⟩ := h
    subst hd
    exact ⟨fun k0 v0 h0 => h0, Or.inl rfl⟩
  | none =>
    cases hu : lookupKey d.entries "UNK" with
    | none =>
      simp only [ddLookup, hk, hu] at h
      exact Option.noConfusion h
    | some w =>
      simp only [ddLookup, hk, hu, Option.some.injEq, Prod.mk.injEq] at h
      obtain ⟨hv, hd⟩ := h
      subst hv
      subst hd
      exact ⟨fun k0 v0 h0 => lookupKey_append_some _ _ _ _ h0, Or.inr ⟨rfl, rfl, rfl⟩⟩

/-- Witness for C9's amended claim: after the out-of-vocabulary lookup
of "zebra" on the fixture mapping, the pre-existing binding of "cat"
is unchanged. -/
theorem ddLookup_preserves_existing_witness :
    lookupKey [("UNK", 0), ("cat", 1), ("dog", 2), ("zebra", 0)] "cat" = some 1 :=
  (ddLookup_preserves_existing (create_embedding_matrix fixtureF).2 "zebra" 0
    ⟨[("UNK", 0), ("cat", 1), ("dog", 2), ("zebra", 0)]⟩ (by decide)).1 "cat" 1 (by decide)

/-! ### Claims about `download_file` -/

/-- C5: when the connection delivers a response of N body bytes,
`download_file` consumes the body in 1 MiB chunks and writes exactly
those N bytes to the destination byte for byte, truncating any
pre-existing contents (`FileSystem.write` replaces them), and returns
the destination path it was given. -/
theorem download_file_writes_body (net : Network) (url : String) (p : Path)
    (fs : FileSystem) (r : Response) (h : net url = some r) :
    download_file net url p fs = some (fs.write p r.body, p)
    ∧ (fs.write p r.body).read p = some r.body := by
  constructor
  · simp only [download_file, h]
    rw [chunksOf_foldl chunkSize (by decide) r.body]
  · exact read_write_self fs p r.body

/-- Witness for C5: a 2-byte body is written byte for byte to the
destination and the destination path is returned. -/
theorem download_file_writes_body_witness :
    download_file netFixture "http://example.com/f" "dest.bin" ⟨[]⟩
      = some (FileSystem.write ⟨[]⟩ "dest.bin" [103, 122], "dest.bin")
    ∧ (FileSystem.write ⟨[]⟩ "dest.bin" [103, 122]).read "dest.bin" = some [103, 122] :=
  download_file_writes_body netFixture "http://example.com/f" "dest.bin" ⟨[]⟩
    ⟨200, [103, 122]⟩ rfl

/-- C7 counterexample: with a server answering status 404,
`download_file` does not fail: it accepts the response, writes its body
to the destination and returns the path, so a non-200 response is
silently accepted rather than terminating the caller. -/
theorem download_file_accepts_non_200 :
    download_file net404 "http://x" "f" ⟨[]⟩
      = some (FileSystem.write ⟨[]⟩ "f" [110, 111], "f") := by
  decide

/-- C7 amended: `download_file` never inspects the HTTP status code.
It fails exactly when the connection itself fails (a transport error
raised by the fetch); for any delivered response, a non-success status
included, it writes the response body to the destination and returns
the path. -/
theorem download_file_ignores_status (net : Network) (url : String) (p : Path)
    (fs : FileSystem) :
    (net url = none → download_file net url p fs = none)
    ∧ (∀ r : Response, net url = some r → r.status ≠ 200 →
        download_file net url p fs = some (fs.write p r.body, p)) := by
  constructor
  · intro h
    simp [download_file, h]
  · intro r h _
    simp only [download_file, h]
    rw [chunksOf_foldl chunkSize (by decide) r.body]

/-- Witness for C7's amended claim at a 404 response. -/
theorem download_file_ignores_status_witness :
    download_file net404 "http://y" "g" ⟨[]⟩
      = some (FileSystem.write ⟨[]⟩ "g" [110, 111], "g") :=
  (download_file_ignores_status net404 "http://y" "g" ⟨[]⟩).2
    ⟨404, [110, 111]⟩ rfl (by decide)

/-! ### Claims about `download_embedding` -/

/-- The orchestration fetches exactly when the archive is initially
absent: the operation trace contains a download event iff the existence
check on `embedding_downloaded_path` failed. -/
theorem download_embedding_any_isDownload (net : Network) (gunzip : Gunzip)
    (conf : Conf) (fs : FileSystem) :
    (download_embedding net gunzip conf fs).1.any Event.isDownload
      = !(fs.exists? embedding_downloaded_path) := by
  by_cases h : fs.exists? embedding_downloaded_path = true
  · by_cases h2 : fs.exists? conf.embedding_path = true
    · simp [download_embedding, h, h2]
    · rw [Bool.not_eq_true] at h2
      cases hx : extract_embedding gunzip conf fs with
      | none => simp [download_embedding, h, h2, hx, Event.isDownload]
      | some fs2 => simp [download_embedding, h, h2, hx, Event.isDownload]
  · rw [Bool.not_eq_true] at h
    cases hd : download_file net embedding_download_link embedding_downloaded_path fs with
    | none => simp [download_embedding, h, hd, Event.isDownload]
    | some pr =>
      obtain ⟨fs', pth⟩ := pr
      by_cases h2 : fs'.exists? conf.embedding_path = true
      · simp [download_embedding, h, hd, h2, Event.isDownload]
      · rw [Bool.not_eq_true] at h2
        cases hx : extract_embedding gunzip conf fs' with
        | none => simp [download_embedding, h, hd, h2, hx, Event.isDownload]
        | some fs2 => simp [download_embedding, h, hd, h2, hx, Event.isDownload]

/-- C2: for every filesystem state (and any network, gzip oracle and
configuration), the orchestration invokes the Fetcher iff the
compressed archive path does not exist; in particular, when the archive
is present no network call occurs. -/
theorem download_invoked_iff_archive_absent (net : Network) (gunzip : Gunzip)
    (conf : Conf) (fs : FileSystem) :
    ((download_embedding net gunzip conf fs).1.any Event.isDownload = true)
      ↔ fs.exists? embedding_downloaded_path = false := by
  rw [download_embedding_any_isDownload]
  cases h : fs.exists? embedding_downloaded_path <;> simp

/-- C3: provided the configured decompressed path is a different path
from the hardcoded archive path and the orchestration runs to
completion, it performs the extraction iff the decompressed file at the
configured `embedding_path` was absent; when that file exists, the
Extractor is not invoked. -/
theorem extract_invoked_iff_decompressed_absent (net : Network) (gunzip : Gunzip)
    (conf : Conf) (fs : FileSystem)
    (hne : conf.embedding_path ≠ embedding_downloaded_path)
    (hsucc : (download_embedding net gunzip conf fs).2.isSome = true) :
    ((download_embedding net gunzip conf fs).1.any Event.isExtract = true)
      ↔ fs.exists? conf.embedding_path = false := by
  by_cases h : fs.exists? embedding_downloaded_path = true
  · by_cases h2 : fs.exists? conf.embedding_path = true
    · simp [download_embedding, h, h2, Event.isExtract]
    · rw [Bool.not_eq_true] at h2
      cases hx : extract_embedding gunzip conf fs with
      | none =>
        exfalso
        simp [download_embedding, h, h2, hx] at hsucc
      | some fs2 => simp [download_embedding, h, h2, hx, Event.isExtract]
  · rw [Bool.not_eq_true] at h
    cases hd : download_file net embedding_download_link embedding_downloaded_path fs with
    | none =>
      exfalso
      simp [download_embedding, h, hd] at hsucc
    | some pr =>
      obtain ⟨fs', pth⟩ := pr
      have hpres : fs'.exists? conf.embedding_path = fs.exists? conf.embedding_path := by
        simp only [download_file] at hd
        cases hnet : net embedding_download_link with
        | none =>
          rw [hnet] at hd
          exact Option.noConfusion hd
        | some r =>
          simp only [hnet, Option.some.injEq, Prod.mk.injEq] at hd
          rw [← hd.1]
          exact exists?_write_ne fs _ _ conf.embedding_path hne
      by_cases h2 : fs'.exists? conf.embedding_path = true
      · have h2' : fs.exists? conf.embedding_path = true := hpres ▸ h2
        simp [download_embedding, h, hd, h2, h2', Event.isExtract]
      · rw [Bool.not_eq_true] at h2
        have h2' : fs.exists? conf.embedding_path = false := hpres ▸ h2
        cases hx : extract_embedding gunzip conf fs' with
        | none =>
          exfalso
          simp [download_embedding, h, hd, h2, hx] at hsucc
        | some fs2 => simp [download_embedding, h, hd, h2, h2', hx, Event.isExtract]

/-- Witness for C3 on an empty filesystem, where the orchestration
fetches and then extracts successfully. -/
theorem extract_invoked_iff_decompressed_absent_witness :
    ((download_embedding netFixture gunzipFixture confFixture ⟨[]⟩).1.any
        Event.isExtract = true)
      ↔ FileSystem.exists? ⟨[]⟩ confFixture.embedding_path = false :=
  extract_invoked_iff_decompressed_absent netFixture gunzipFixture confFixture ⟨[]⟩
    (by decide) (by decide)

/-- C4: with both the compressed archive and the decompressed file
already present, the orchestration performs zero network calls and zero
decompressions (the trace is empty) and leaves the filesystem
unchanged. -/
theorem download_embedding_idempotent (net : Network) (gunzip : Gunzip)
    (conf : Conf) (fs : FileSystem)
    (h1 : fs.exists? embedding_downloaded_path = true)
    (h2 : fs.exists? conf.embedding_path = true) :
    download_embedding net gunzip conf fs = ([], some fs) := by
  simp [download_embedding, h1, h2]

/-- Witness for C4 on a filesystem holding both artifacts. -/
theorem download_embedding_idempotent_witness :
    download_embedding netFixture gunzipFixture confFixture fsBoth = ([], some fsBoth) :=
  download_embedding_idempotent netFixture gunzipFixture confFixture fsBoth
    (by decide) (by decide)

/-- C6: when the archive is present with well-formed gzip contents
(`gunzip c = some d`) and the output file is absent, the orchestration's
extraction step writes an output file whose contents equal the
decompressed source `d` exactly -- the line-by-line copy concatenates
the lines of `d` in order, which reproduces `d`. -/
theorem extraction_output_is_decompressed_source (net : Network) (gunzip : Gunzip)
    (conf : Conf) (fs : FileSystem) (c d : Bytes)
    (hread : fs.read embedding_downloaded_path = some c)
    (hgz : gunzip c = some d)
    (habs : fs.exists? conf.embedding_path = false) :
    (download_embedding net gunzip conf fs).2
      = some (fs.write conf.embedding_path d)
    ∧ (fs.write conf.embedding_path d).read conf.embedding_path = some d := by
  have harch : fs.exists? embedding_downloaded_path = true :=
    exists?_of_read fs _ c hread
  have hlines : (linesOf d).foldl (fun acc line => acc ++ line) [] = d := by
    rw [foldl_append_eq_flatten, List.nil_append, flatten_linesOf]
  constructor
  · simp [download_embedding, harch, habs, extract_embedding, hread, hgz, hlines]
  · exact read_write_self fs _ d

/-- Witness for C6: extracting a 2-byte archive that decompresses to
two text lines writes exactly those decompressed bytes. -/
theorem extraction_output_is_decompressed_source_witness :
    (download_embedding netFixture gunzipFixture confFixture fsArchOnly).2
      = some (fsArchOnly.write confFixture.embedding_path [104, 105, 10, 121, 111])
    ∧ (fsArchOnly.write confFixture.embedding_path [104, 105, 10, 121, 111]).read
        confFixture.embedding_path = some [104, 105, 10, 121, 111] :=
  extraction_output_is_decompressed_source netFixture gunzipFixture confFixture
    fsArchOnly [31, 139] [104, 105, 10, 121, 111] (by decide) rfl (by decide)

/-- C10: a delivered response with a zero-byte body still creates the
destination file: `download_file` writes an empty file at the archive
path and returns that path, the file then exists, and a subsequent
orchestration run sees the artifact as present and performs no
fetch. -/
theorem empty_body_skips_future_fetch (net net2 : Network) (gunzip : Gunzip)
    (conf : Conf) (fs : FileSystem) (s : Nat)
    (h : net embedding_download_link = some ⟨s, []⟩) :
    download_file net embedding_download_link embedding_downloaded_path fs
      = some (fs.write embedding_downloaded_path [], embedding_downloaded_path)
    ∧ (fs.write embedding_downloaded_path []).exists? embedding_downloaded_path = true
    ∧ (download_embedding net2 gunzip conf
        (fs.write embedding_downloaded_path [])).1.any Event.isDownload = false := by
  refine ⟨?_, exists?_write_self fs _ _, ?_⟩
  · have hc : chunksOf chunkSize ([] : Bytes) = [] := rfl
    simp [download_file, h, hc]
  · rw [download_embedding_any_isDownload, exists?_write_self]
    rfl

/-- Witness for C10 on an empty filesystem with an empty-body 200
response. -/
theorem empty_body_skips_future_fetch_witness :
    download_file netEmpty embedding_download_link embedding_downloaded_path ⟨[]⟩
      = some (FileSystem.write ⟨[]⟩ embedding_downloaded_path [], embedding_downloaded_path)
    ∧ (FileSystem.write ⟨[]⟩ embedding_downloaded_path []).exists?
        embedding_downloaded_path = true
    ∧ (download_embedding netEmpty gunzipFixture confFixture
        (FileSystem.write ⟨[]⟩ embedding_downloaded_path [])).1.any
        Event.isDownload = false :=
  empty_body_skips_future_fetch netEmpty netEmpty gunzipFixture confFixture ⟨[]⟩ 200 rfl

end RedditUpvote
